import Mathlib

/-!
Verification of the `taco` repository (FDE quantum-chemistry glue code).

The development shallowly embeds the three Python source files:

* `taco/playground/fde_psi4.py` — the `run_co_h2o_psi4` script: block-diagonal
  density partitioning, grid-quadrature accumulation of non-additive
  kinetic/exchange-correlation energies, Thomas-Fermi functional, and the
  symmetrized potential-matrix assembly loop.
* `taco/methods/scf.py` — the `ScfMethod` base class (cached densities and
  energies with truthiness-based cache checks).
* `taco/methods/scf_pyscf.py` — the `ScfPyScf` adapter (molecule formatting,
  in-place Fock perturbation via an aliased numpy array, shallow-copy
  save/restore of the solver object, `solve_scf` attribute configuration).

Real-space grids, basis sets, and the LibXC functional are external toolkit
objects; they enter the embedding as free data: a `GridBlock` carries the
quadrature weights, the basis values `phi`, and the local-to-global index map
of one Psi4 grid block, and the per-point exchange-correlation energy density
is an abstract function parameter.  Dense matrices are total functions
`ℕ → ℕ → α` (indices outside the intended range are irrelevant to every
statement).  Exact arithmetic (`ℚ` where the code is rational, `ℝ` where the
Thomas-Fermi powers `ρ^(5/3)` appear) replaces floating point.
-/

set_option autoImplicit false

namespace Taco

/-! ## Grid-based density machinery from `run_co_h2o_psi4` -/

/-- `scipy.linalg.block_diag(A, B)` for an `na × na` leading block: entries
with both indices below `na` come from `A`, entries with both indices at or
above `na` come from `B` (shifted), and the off-diagonal blocks are zero. -/
def blockDiag {α : Type} [Zero α] (na : ℕ) (A B : ℕ → ℕ → α) : ℕ → ℕ → α :=
  fun i j =>
    if i < na then (if j < na then A i j else 0)
    else (if j < na then 0 else B (i - na) (j - na))

/-- `dm_both = block_diag(dma, dmb)` (fde_psi4.py line 130). -/
def dm_both {α : Type} [Zero α] (na : ℕ) (dma dmb : ℕ → ℕ → α) : ℕ → ℕ → α :=
  blockDiag na dma dmb

/-- `dma_sup = block_diag(dma, dbzeros)` (fde_psi4.py line 131). -/
def dma_sup {α : Type} [Zero α] (na : ℕ) (dma : ℕ → ℕ → α) : ℕ → ℕ → α :=
  blockDiag na dma (fun _ _ => 0)

/-- `dmb_sup = block_diag(dazeros, dmb)` (fde_psi4.py line 132). -/
def dmb_sup {α : Type} [Zero α] (na : ℕ) (dmb : ℕ → ℕ → α) : ℕ → ℕ → α :=
  blockDiag na (fun _ _ => 0) dmb

/-- The data of one Psi4 DFT-grid block as consumed by the loop body:
the number of quadrature points, the local-to-global basis-function index map
`lpos = block.functions_local_to_global()`, the quadrature weights
`w = block.w()`, and the basis values `phi[p][m]` at point `p` for local
basis function `m`. -/
structure GridBlock (α : Type) where
  npoints : ℕ
  lpos : List ℕ
  w : ℕ → α
  phi : ℕ → ℕ → α

/-- The local slice `D[(lpos[:, None], lpos)]` of a global matrix. -/
def localSlice {α : Type} (D : ℕ → ℕ → α) (lpos : List ℕ) (m n : ℕ) : α :=
  D (lpos.getD m 0) (lpos.getD n 0)

/-- `rho = 2.0 * np.einsum('pm,mn,pn->p', phi, lD, phi)` at point `p`
(fde_psi4.py lines 169-171). -/
def computeRho {α : Type} [CommRing α] (phi lD : ℕ → ℕ → α) (nl : ℕ) (p : ℕ) : α :=
  2 * ∑ m ∈ Finset.range nl, ∑ n ∈ Finset.range nl, phi p m * lD m n * phi p n

/-- The density a block's basis values produce from a global density matrix. -/
def GridBlock.rho {α : Type} [CommRing α] (b : GridBlock α) (D : ℕ → ℕ → α)
    (p : ℕ) : α :=
  computeRho b.phi (localSlice D b.lpos) b.lpos.length p

/-- The grid-quadrature sum `np.einsum('a,a->', w, f)` over one block. -/
def GridBlock.quad {α : Type} [CommRing α] (b : GridBlock α) (f : ℕ → α) : α :=
  ∑ p ∈ Finset.range b.npoints, b.w p * f p

/-- The electron-count accumulation `nelec += np.einsum('a,a->', w, rho)`
over the whole block loop (fde_psi4.py lines 208-210), starting from `0`. -/
def nelecAccum {α : Type} [CommRing α] (blocks : List (GridBlock α))
    (D : ℕ → ℕ → α) : α :=
  blocks.foldl (fun acc b => acc + b.quad (b.rho D)) 0

/-- Folding `acc + f b` over a list equals the initial value plus the sum. -/
theorem foldl_add_eq_sum {α β : Type} [AddCommMonoid α] (f : β → α)
    (l : List β) (c : α) :
    l.foldl (fun a b => a + f b) c = c + (l.map f).sum := by
  induction l generalizing c with
  | nil => simp
  | cons x xs ih => simp [ih, add_assoc]

theorem sum_map_add {α β : Type} [AddCommMonoid α] (f g : β → α) (l : List β) :
    (l.map fun b => f b + g b).sum = (l.map f).sum + (l.map g).sum := by
  induction l with
  | nil => simp
  | cons x xs ih =>
      simp only [List.map_cons, List.sum_cons, ih]
      abel

/-- The quadrature sum is additive in the integrand. -/
theorem quad_add {α : Type} [CommRing α] (b : GridBlock α) (f g : ℕ → α) :
    b.quad (fun p => f p + g p) = b.quad f + b.quad g := by
  unfold GridBlock.quad
  simp only [mul_add, Finset.sum_add_distrib]

theorem dm_both_eq_add {α : Type} [AddGroup α] (na : ℕ) (dma dmb : ℕ → ℕ → α)
    (i j : ℕ) :
    dm_both na dma dmb i j = dma_sup na dma i j + dmb_sup na dmb i j := by
  unfold dm_both dma_sup dmb_sup blockDiag
  by_cases hi : i < na <;> by_cases hj : j < na <;> simp [hi, hj]

theorem rho_additive {α : Type} [CommRing α] (b : GridBlock α)
    (na : ℕ) (dma dmb : ℕ → ℕ → α) (p : ℕ) :
    b.rho (dm_both na dma dmb) p
      = b.rho (dma_sup na dma) p + b.rho (dmb_sup na dmb) p := by
  unfold GridBlock.rho computeRho localSlice
  have h : ∀ m n : ℕ,
      b.phi p m * dm_both na dma dmb (b.lpos.getD m 0) (b.lpos.getD n 0) * b.phi p n
        = b.phi p m * dma_sup na dma (b.lpos.getD m 0) (b.lpos.getD n 0) * b.phi p n
          + b.phi p m * dmb_sup na dmb (b.lpos.getD m 0) (b.lpos.getD n 0) * b.phi p n := by
    intro m n
    rw [dm_both_eq_add]
    ring
  calc 2 * ∑ m ∈ Finset.range b.lpos.length, ∑ n ∈ Finset.range b.lpos.length,
        b.phi p m * dm_both na dma dmb (b.lpos.getD m 0) (b.lpos.getD n 0) * b.phi p n
      = 2 * ∑ m ∈ Finset.range b.lpos.length, ∑ n ∈ Finset.range b.lpos.length,
        (b.phi p m * dma_sup na dma (b.lpos.getD m 0) (b.lpos.getD n 0) * b.phi p n
          + b.phi p m * dmb_sup na dmb (b.lpos.getD m 0) (b.lpos.getD n 0) * b.phi p n) := by
        congr 1
        exact Finset.sum_congr rfl fun m _ => Finset.sum_congr rfl fun n _ => h m n
    _ = _ := by
        simp only [Finset.sum_add_distrib]
        ring

/-- C2: the block-diagonal supersystem density matrix is the sum of the two
padded subsystem matrices, every block density splits as `rho = rhoa + rhob`,
and the accumulated electron counts satisfy `nelec_tot = nelec_a + nelec_b`. -/
theorem C2_density_partition_exact {α : Type} [CommRing α] (na : ℕ)
    (dma dmb : ℕ → ℕ → α) (blocks : List (GridBlock α)) :
    (∀ i j, dm_both na dma dmb i j = dma_sup na dma i j + dmb_sup na dmb i j)
    ∧ (∀ b ∈ blocks, ∀ p,
        b.rho (dm_both na dma dmb) p
          = b.rho (dma_sup na dma) p + b.rho (dmb_sup na dmb) p)
    ∧ nelecAccum blocks (dm_both na dma dmb)
        = nelecAccum blocks (dma_sup na dma) + nelecAccum blocks (dmb_sup na dmb) := by
  refine ⟨fun i j => dm_both_eq_add na dma dmb i j,
          fun b _ p => rho_additive b na dma dmb p, ?_⟩
  unfold nelecAccum
  rw [foldl_add_eq_sum, foldl_add_eq_sum, foldl_add_eq_sum]
  simp only [zero_add]
  have hb : ∀ b : GridBlock α,
      b.quad (b.rho (dm_both na dma dmb))
        = b.quad (b.rho (dma_sup na dma)) + b.quad (b.rho (dmb_sup na dmb)) := by
    intro b
    have : b.rho (dm_both na dma dmb)
        = fun p => b.rho (dma_sup na dma) p + b.rho (dmb_sup na dmb) p := by
      funext p
      exact rho_additive b na dma dmb p
    rw [this, quad_add]
  calc (blocks.map fun b => b.quad (b.rho (dm_both na dma dmb))).sum
      = (blocks.map fun b =>
          b.quad (b.rho (dma_sup na dma)) + b.quad (b.rho (dmb_sup na dmb))).sum := by
        congr 1
        exact List.map_congr_left fun b _ => hb b
    _ = _ := sum_map_add _ _ blocks

/-! ## Potential-matrix assembly (fde_psi4.py lines 149-150, 214-219) -/

/-- `Vtmp = np.einsum('pb,p,p,pa->ab', phi, v, w, phi)`: entry `(a, c)` is the
quadrature-weighted outer product of basis values against the per-point
potential `v`. -/
def vtmpOf {α : Type} [CommRing α] (b : GridBlock α) (v : ℕ → α) : ℕ → ℕ → α :=
  fun a c => ∑ p ∈ Finset.range b.npoints, b.phi p c * v p * b.w p * b.phi p a

/-- `0.5 * (Vtmp + Vtmp.T)` (fde_psi4.py lines 218-219). -/
def symmetrize {α : Type} [Field α] (M : ℕ → ℕ → α) : ℕ → ℕ → α :=
  fun a c => (1 / 2 : α) * (M a c + M c a)

/-- `V[(lpos[:, None], lpos)] += S`: scatter-add the local matrix `S` into the
global matrix at the (distinct) global indices `lpos`. -/
def scatterAdd {α : Type} [Add α] (V : ℕ → ℕ → α) (lpos : List ℕ)
    (S : ℕ → ℕ → α) : ℕ → ℕ → α :=
  fun p q =>
    match lpos.findIdx? (fun r => r == p), lpos.findIdx? (fun r => r == q) with
    | some i, some j => V p q + S i j
    | some _, none => V p q
    | none, _ => V p q

/-- The accumulation loop for `V` (and identically for `Vt`): starting from
`np.zeros_like(dm_both)`, each block contributes its symmetrized `Vtmp`,
built from that block's per-point potential values `vOf b` (the external
functional derivative data). -/
def assembleV {α : Type} [Field α] (blocks : List (GridBlock α))
    (vOf : GridBlock α → ℕ → α) : ℕ → ℕ → α :=
  blocks.foldl (fun V b => scatterAdd V b.lpos (symmetrize (vtmpOf b (vOf b)))) (fun _ _ => 0)

theorem symmetrize_symm {α : Type} [Field α] (M : ℕ → ℕ → α) (a c : ℕ) :
    symmetrize M a c = symmetrize M c a := by
  unfold symmetrize
  ring

theorem scatterAdd_symm {α : Type} [Field α] (V : ℕ → ℕ → α) (lpos : List ℕ)
    (S : ℕ → ℕ → α) (hV : ∀ p q, V p q = V q p) (hS : ∀ i j, S i j = S j i)
    (p q : ℕ) :
    scatterAdd V lpos S p q = scatterAdd V lpos S q p := by
  unfold scatterAdd
  cases hp : lpos.findIdx? (fun r => r == p) <;>
    cases hq : lpos.findIdx? (fun r => r == q) <;>
      simp [hV p q, hS]

/-- C3: the accumulated potential matrices start from zero and stay symmetric
after every iteration of the block loop (every prefix of the block list, hence
every block list, yields a symmetric matrix). -/
theorem C3_potential_matrix_symmetric {α : Type} [Field α]
    (blocks : List (GridBlock α)) (vOf : GridBlock α → ℕ → α) :
    (∀ p q, assembleV ([] : List (GridBlock α)) vOf p q = 0)
    ∧ ∀ p q, assembleV blocks vOf p q = assembleV blocks vOf q p := by
  constructor
  · intro p q
    rfl
  · have main : ∀ (bs : List (GridBlock α)) (V : ℕ → ℕ → α),
        (∀ p q, V p q = V q p) →
        ∀ p q, bs.foldl (fun V b => scatterAdd V b.lpos (symmetrize (vtmpOf b (vOf b)))) V p q
          = bs.foldl (fun V b => scatterAdd V b.lpos (symmetrize (vtmpOf b (vOf b)))) V q p := by
      intro bs
      induction bs with
      | nil => intro V hV p q; exact hV p q
      | cons b bs ih =>
          intro V hV p q
          exact ih _ (scatterAdd_symm V b.lpos _ hV (symmetrize_symm _)) p q
    exact main blocks (fun _ _ => 0) (fun _ _ => rfl)

/-! ## Thomas-Fermi kinetic functional (fde_psi4.py lines 97-102) -/

/-- Per-point energy density `et = cf * rho ** (5/3)`. -/
noncomputable def tf_et (r : ℝ) : ℝ := 2.8712 * r ^ ((5 : ℝ) / 3)

/-- Per-point potential `vt = cf * 5 / 3 * rho ** (2/3)`. -/
noncomputable def tf_vt (r : ℝ) : ℝ := 2.8712 * 5 / 3 * r ^ ((2 : ℝ) / 3)

/-- `compute_kinetic_tf(rho)` applied elementwise to a density array. -/
noncomputable def compute_kinetic_tf (rho : List ℝ) : List ℝ × List ℝ :=
  (rho.map tf_et, rho.map tf_vt)

/-- Pointwise Euler relation of the Thomas-Fermi density: for `0 ≤ r`,
`vt r * r = (5/3) * et r`, i.e. `r^(2/3) * r = r^(5/3)`. -/
theorem tf_vt_mul_self (r : ℝ) (hr : 0 ≤ r) :
    tf_vt r * r = 5 / 3 * tf_et r := by
  unfold tf_vt tf_et
  rcases eq_or_lt_of_le hr with h0 | hpos
  · rw [← h0]
    rw [Real.zero_rpow (by norm_num), Real.zero_rpow (by norm_num)]
    ring
  · have h23 : r ^ ((2 : ℝ) / 3) * r = r ^ ((5 : ℝ) / 3) := by
      calc r ^ ((2 : ℝ) / 3) * r = r ^ ((2 : ℝ) / 3) * r ^ ((1 : ℝ)) := by
            rw [Real.rpow_one]
        _ = r ^ ((2 : ℝ) / 3 + 1) := (Real.rpow_add hpos _ _).symm
        _ = r ^ ((5 : ℝ) / 3) := by norm_num
    calc 2.8712 * 5 / 3 * r ^ ((2 : ℝ) / 3) * r
        = 2.8712 * 5 / 3 * (r ^ ((2 : ℝ) / 3) * r) := by ring
      _ = 2.8712 * 5 / 3 * r ^ ((5 : ℝ) / 3) := by rw [h23]
      _ = 5 / 3 * (2.8712 * r ^ ((5 : ℝ) / 3)) := by ring

/-- C4: `compute_kinetic_tf` returns the elementwise Thomas-Fermi energy
density and potential, and on nonnegative densities the potential is the
density derivative of the energy density: `vt * rho = (5/3) * et` pointwise. -/
theorem C4_compute_kinetic_tf (rho : List ℝ) (h : ∀ r ∈ rho, 0 ≤ r) :
    (compute_kinetic_tf rho).1 = rho.map (fun r => 2.8712 * r ^ ((5 : ℝ) / 3))
    ∧ (compute_kinetic_tf rho).2 = rho.map (fun r => 2.8712 * 5 / 3 * r ^ ((2 : ℝ) / 3))
    ∧ List.zipWith (fun v r => v * r) (compute_kinetic_tf rho).2 rho
        = (compute_kinetic_tf rho).1.map (fun e => 5 / 3 * e) := by
  refine ⟨rfl, rfl, ?_⟩
  unfold compute_kinetic_tf
  induction rho with
  | nil => rfl
  | cons r rs ih =>
      simp only [List.map_cons, List.zipWith_cons_cons]
      rw [tf_vt_mul_self r (h r (List.mem_cons_self r rs)),
          ih fun x hx => h x (List.mem_cons_of_mem r hx)]

/-- Witness for C4 at the concrete density array `[0, 1]`. -/
theorem C4_compute_kinetic_tf_witness :
    List.zipWith (fun v r => v * r) (compute_kinetic_tf [0, 1]).2 [(0 : ℝ), 1]
      = (compute_kinetic_tf [0, 1]).1.map (fun e => 5 / 3 * e) := by
  have h : ∀ r ∈ [(0 : ℝ), 1], 0 ≤ r := by
    intro r hr
    simp only [List.mem_cons, List.not_mem_nil, or_false] at hr
    rcases hr with h0 | h1
    · rw [h0]
    · rw [h1]; norm_num
  exact (C4_compute_kinetic_tf [0, 1] h).2.2

/-! ## `build_supersystem` (fde_psi4.py lines 9-28) -/

/-- One atom of a Psi4 molecule: element symbol and Cartesian coordinates. -/
structure Atom where
  elem : String
  x : ℚ
  y : ℚ
  z : ℚ
deriving DecidableEq

/-- `mol.to_arrays()` restricted to the parts the script uses: the geometry
array and the element-symbol array. -/
def to_arrays (m : List Atom) : List (ℚ × ℚ × ℚ) × List String :=
  (m.map fun a => (a.x, a.y, a.z), m.map fun a => a.elem)

/-- The geometry handed to `psi4.geometry`: the template hard-codes charge
`0`, multiplicity `1`, `units au`, `symmetry c1`, and interpolates one line
per atom (element symbol followed by the three coordinates). -/
structure Psi4Geometry where
  charge : ℤ
  multiplicity : ℕ
  atoms : List (String × ℚ × ℚ × ℚ)
  units : String
  symmetry : String
deriving DecidableEq

/-- `build_supersystem(mol1, mol2)`: vstack the geometries, append the element
arrays, hstack them into rows, and feed the rows into the fixed template. -/
def build_supersystem (mol1 mol2 : List Atom) : Psi4Geometry :=
  let geom1 := (to_arrays mol1).1
  let elem1 := (to_arrays mol1).2
  let geom2 := (to_arrays mol2).1
  let elem2 := (to_arrays mol2).2
  let geom_merged := geom1 ++ geom2
  let elem_merged := elem1 ++ elem2
  let mol := elem_merged.zip geom_merged
  { charge := 0, multiplicity := 1, atoms := mol, units := "au", symmetry := "c1" }

/-- C7: the supersystem is mol1's atoms followed by mol2's atoms, each with
symbol and coordinates unchanged (in atomic units), with total charge 0 and
multiplicity 1. -/
theorem C7_build_supersystem (mol1 mol2 : List Atom) :
    (build_supersystem mol1 mol2).atoms
        = (mol1 ++ mol2).map (fun a => (a.elem, a.x, a.y, a.z))
    ∧ (build_supersystem mol1 mol2).charge = 0
    ∧ (build_supersystem mol1 mol2).multiplicity = 1
    ∧ (build_supersystem mol1 mol2).units = "au" := by
  refine ⟨?_, rfl, rfl, rfl⟩
  show ((mol1.map fun a => a.elem) ++ mol2.map fun a => a.elem).zip
      ((mol1.map fun a => (a.x, a.y, a.z)) ++ mol2.map fun a => (a.x, a.y, a.z))
    = (mol1 ++ mol2).map fun a => (a.elem, a.x, a.y, a.z)
  rw [List.zip_append (by simp)]
  rw [List.zip_map', List.zip_map', List.map_append]

/-! ## Non-additive energy accumulation (fde_psi4.py lines 140-228)

The LibXC exchange-correlation functional is external; it enters as an
abstract per-point energy density `exc : ℝ → ℝ` applied to the density at
each grid point (`superfunc.compute_functional(inp)["V"]`).  The loop body is
transcribed binding by binding; in particular line 191 of the source reads
`vk_a = np.array(ret["V"])[:npoints]` — `ret`, the supersystem result — even
though `reta = superfunc.compute_functional(inpa, -1)` was just computed for
subsystem A. -/

/-- The six energy accumulators of the block loop, all initialized to `0`. -/
structure EnergyAcc where
  et_tot : ℝ
  et_a : ℝ
  et_b : ℝ
  exc_tot : ℝ
  exc_a : ℝ
  exc_b : ℝ

theorem EnergyAcc.ext_iff_mk (a b : EnergyAcc) :
    a = b ↔ a.et_tot = b.et_tot ∧ a.et_a = b.et_a ∧ a.et_b = b.et_b
      ∧ a.exc_tot = b.exc_tot ∧ a.exc_a = b.exc_a ∧ a.exc_b = b.exc_b := by
  cases a
  cases b
  simp [EnergyAcc.mk.injEq]

/-- One iteration of the block loop (fde_psi4.py lines 151-203), restricted to
the energy accumulators.  `vk_a := ret` reproduces source line 191 verbatim:
the A-subsystem accumulation reads the supersystem functional value `ret["V"]`
although `reta` (the functional evaluated on `rhoa`) is available. -/
noncomputable def blockStep (exc : ℝ → ℝ) (na : ℕ) (dma dmb : ℕ → ℕ → ℝ)
    (acc : EnergyAcc) (b : GridBlock ℝ) : EnergyAcc :=
  let rho := b.rho (dm_both na dma dmb)
  let rhoa := b.rho (dma_sup na dma)
  let rhob := b.rho (dmb_sup na dmb)
  let ret := fun p => exc (rho p)
  let vk_tot := ret
  let vk_a := ret
  let retb := fun p => exc (rhob p)
  let vk_b := retb
  { et_tot := acc.et_tot + b.quad fun p => tf_et (rho p)
    exc_tot := acc.exc_tot + b.quad vk_tot
    et_a := acc.et_a + b.quad fun p => tf_et (rhoa p)
    exc_a := acc.exc_a + b.quad vk_a
    et_b := acc.et_b + b.quad fun p => tf_et (rhob p)
    exc_b := acc.exc_b + b.quad vk_b }

/-- The whole block loop, starting from zeroed accumulators. -/
noncomputable def runLoop (exc : ℝ → ℝ) (na : ℕ) (dma dmb : ℕ → ℕ → ℝ)
    (blocks : List (GridBlock ℝ)) : EnergyAcc :=
  blocks.foldl (blockStep exc na dma dmb) ⟨0, 0, 0, 0, 0, 0⟩

/-- `enad_xc = exc_tot - exc_a - exc_b` (fde_psi4.py line 227). -/
noncomputable def enad_xc (exc : ℝ → ℝ) (na : ℕ) (dma dmb : ℕ → ℕ → ℝ)
    (blocks : List (GridBlock ℝ)) : ℝ :=
  (runLoop exc na dma dmb blocks).exc_tot - (runLoop exc na dma dmb blocks).exc_a
    - (runLoop exc na dma dmb blocks).exc_b

/-- `enad_t = et_tot - et_a - et_b` (fde_psi4.py line 228). -/
noncomputable def enad_t (exc : ℝ → ℝ) (na : ℕ) (dma dmb : ℕ → ℕ → ℝ)
    (blocks : List (GridBlock ℝ)) : ℝ :=
  (runLoop exc na dma dmb blocks).et_tot - (runLoop exc na dma dmb blocks).et_a
    - (runLoop exc na dma dmb blocks).et_b

/-- The claim's grid-quadrature sum of a functional over all blocks,
evaluated on the density a given density matrix produces. -/
noncomputable def spec_exc_sum (exc : ℝ → ℝ) (blocks : List (GridBlock ℝ))
    (D : ℕ → ℕ → ℝ) : ℝ :=
  (blocks.map fun b => b.quad fun p => exc (b.rho D p)).sum

/-- The claim's grid-quadrature sum of the Thomas-Fermi energy density. -/
noncomputable def spec_et_sum (blocks : List (GridBlock ℝ)) (D : ℕ → ℕ → ℝ) : ℝ :=
  (blocks.map fun b => b.quad fun p => tf_et (b.rho D p)).sum

/-- The claim's `enad_xc`: functional on `rho`, `rho_A`, `rho_B` respectively. -/
noncomputable def spec_enad_xc (exc : ℝ → ℝ) (na : ℕ) (dma dmb : ℕ → ℕ → ℝ)
    (blocks : List (GridBlock ℝ)) : ℝ :=
  spec_exc_sum exc blocks (dm_both na dma dmb)
    - spec_exc_sum exc blocks (dma_sup na dma)
    - spec_exc_sum exc blocks (dmb_sup na dmb)

/-- The claim's `enad_t`: Thomas-Fermi on `rho`, `rho_A`, `rho_B` respectively. -/
noncomputable def spec_enad_t (na : ℕ) (dma dmb : ℕ → ℕ → ℝ)
    (blocks : List (GridBlock ℝ)) : ℝ :=
  spec_et_sum blocks (dm_both na dma dmb)
    - spec_et_sum blocks (dma_sup na dma)
    - spec_et_sum blocks (dmb_sup na dmb)

theorem foldl_blockStep_eq (exc : ℝ → ℝ) (na : ℕ) (dma dmb : ℕ → ℕ → ℝ)
    (blocks : List (GridBlock ℝ)) (acc : EnergyAcc) :
    blocks.foldl (blockStep exc na dma dmb) acc =
      { et_tot := acc.et_tot + spec_et_sum blocks (dm_both na dma dmb)
        et_a := acc.et_a + spec_et_sum blocks (dma_sup na dma)
        et_b := acc.et_b + spec_et_sum blocks (dmb_sup na dmb)
        exc_tot := acc.exc_tot + spec_exc_sum exc blocks (dm_both na dma dmb)
        exc_a := acc.exc_a + spec_exc_sum exc blocks (dm_both na dma dmb)
        exc_b := acc.exc_b + spec_exc_sum exc blocks (dmb_sup na dmb) } := by
  induction blocks generalizing acc with
  | nil =>
      cases acc
      simp [spec_et_sum, spec_exc_sum]
  | cons b bs ih =>
      rw [List.foldl_cons, ih]
      rw [EnergyAcc.ext_iff_mk]
      simp only [blockStep, spec_et_sum, spec_exc_sum, List.map_cons, List.sum_cons]
      refine ⟨?_, ?_, ?_, ?_, ?_, ?_⟩ <;> ring

/-- The concrete grid block of the failing input: one quadrature point, two
basis functions, unit weights and unit basis values. -/
noncomputable def exBlock : GridBlock ℝ :=
  { npoints := 1, lpos := [0, 1], w := fun _ => 1, phi := fun _ _ => 1 }

/-- The concrete `1 × 1` subsystem density matrices of the failing input. -/
noncomputable def exD : ℕ → ℕ → ℝ := fun _ _ => 1

theorem ex_sum_eval (D : ℕ → ℕ → ℝ) :
    spec_exc_sum id [exBlock] D = 2 * (D 0 0 + D 0 1 + (D 1 0 + D 1 1)) := by
  simp only [spec_exc_sum, List.map_cons, List.map_nil, List.sum_cons, List.sum_nil,
    exBlock, GridBlock.quad, GridBlock.rho, computeRho, localSlice,
    List.length_cons, List.length_nil, Finset.sum_range_succ, Finset.sum_range_zero,
    List.getD_cons_zero, List.getD_cons_succ, id_eq]
  ring

theorem ex_sum_both : spec_exc_sum id [exBlock] (dm_both 1 exD exD) = 4 := by
  rw [ex_sum_eval]
  simp only [dm_both, blockDiag, exD]
  norm_num

theorem ex_sum_a : spec_exc_sum id [exBlock] (dma_sup 1 exD) = 2 := by
  rw [ex_sum_eval]
  simp only [dma_sup, blockDiag, exD]
  norm_num

theorem ex_sum_b : spec_exc_sum id [exBlock] (dmb_sup 1 exD) = 2 := by
  rw [ex_sum_eval]
  simp only [dmb_sup, blockDiag, exD]
  norm_num

/-- C1: the Thomas-Fermi side of the claim holds (`enad_t` evaluates the
kinetic density on `rho`, `rho_A`, `rho_B` respectively), and `exc_tot`,
`exc_b` are accumulated as claimed; but `exc_a` is accumulated from the
functional evaluated on the supersystem density `rho`, not on `rho_A`
(source line 191 reads `ret["V"]` instead of `reta["V"]`), so on the failing
input (one block, one point, unit weights/basis values, `exc = id`, both
subsystem density matrices `1`) the code yields `enad_xc = -2` where the
claimed formula yields `0`. -/
theorem C1_enad_energies :
    (∀ (exc : ℝ → ℝ) (na : ℕ) (dma dmb : ℕ → ℕ → ℝ) (blocks : List (GridBlock ℝ)),
        enad_t exc na dma dmb blocks = spec_enad_t na dma dmb blocks
        ∧ (runLoop exc na dma dmb blocks).exc_tot
            = spec_exc_sum exc blocks (dm_both na dma dmb)
        ∧ (runLoop exc na dma dmb blocks).exc_b
            = spec_exc_sum exc blocks (dmb_sup na dmb)
        ∧ (runLoop exc na dma dmb blocks).exc_a
            = spec_exc_sum exc blocks (dm_both na dma dmb))
    ∧ enad_xc id 1 exD exD [exBlock] = -2
    ∧ spec_enad_xc id 1 exD exD [exBlock] = 0 := by
  have hfold := foldl_blockStep_eq
  refine ⟨?_, ?_, ?_⟩
  · intro exc na dma dmb blocks
    unfold enad_t spec_enad_t runLoop
    rw [hfold exc na dma dmb blocks]
    refine ⟨by ring, by simp, by simp, by simp⟩
  · unfold enad_xc runLoop
    rw [hfold]
    simp only [zero_add]
    rw [ex_sum_both, ex_sum_b]
    norm_num
  · unfold spec_enad_xc
    rw [ex_sum_both, ex_sum_a, ex_sum_b]
    norm_num

/-! ## `get_pyscf_molecule` (scf_pyscf.py lines 11-33) -/

/-- The parts of a `qcelemental` Molecule that `get_pyscf_molecule` reads:
the (possibly missing) `molecular_multiplicity` attribute and the lines of
`mol.to_string(dtype='xyz')`. -/
structure QCMol where
  molecular_multiplicity : Option ℤ
  xyzLines : List String

/-- The arguments `get_pyscf_molecule` passes to the PySCF constructor
`gto.M`; `atom` is kept as the list of joined lines. -/
structure PyScfMol where
  atom : List String
  basis : String
  spin : ℤ
deriving DecidableEq

/-- `len(line.split(' ')) < 4`: fewer than four single-space-separated
fields.  Python's `split(' ')` cuts at every single space and keeps empty
fields, so `len(line.split(' '))` is always the number of space characters
in the line plus one; the embedding uses that count directly. -/
def shortLine (line : String) : Bool := line.data.count ' ' + 1 < 4

/-- `get_pyscf_molecule(mol, basis)`: raise `AttributeError` without a
multiplicity; otherwise count the lines with fewer than four fields anywhere
in the string and drop that many lines from the top, with `spin` set to
`multiplicity - 1`. -/
def get_pyscf_molecule (mol : QCMol) (basis : String) : Except String PyScfMol :=
  match mol.molecular_multiplicity with
  | none => Except.error "AttributeError"
  | some multiplicity =>
      let spin := multiplicity - 1
      let lines := mol.xyzLines
      let count := (lines.filter shortLine).length
      Except.ok { atom := lines.drop count, basis := basis, spin := spin }

/-- The claim's description of the atom lines: exactly the lines with at
least four single-space-separated fields, in their original order. -/
def spec_atom_lines (lines : List String) : List String :=
  lines.filter (fun l => !shortLine l)

/-- C6 counterexample: on the lines `["a b c d", "x"]` the code counts one
short line and drops one line from the top, keeping the short line `"x"` and
discarding the four-field line — the opposite of the claimed filtering. -/
theorem C6_counterexample :
    get_pyscf_molecule { molecular_multiplicity := some 1, xyzLines := ["a b c d", "x"] } "sto-3g"
        = Except.ok { atom := ["x"], basis := "sto-3g", spin := 0 }
    ∧ spec_atom_lines ["a b c d", "x"] = ["a b c d"] := by
  constructor <;> rfl

/-- If every line with fewer than four fields precedes every other line,
dropping the short-line count from the top equals keeping the long lines. -/
theorem drop_count_eq_filter (l : List String)
    (h : l.Pairwise fun x y => shortLine y = true → shortLine x = true) :
    l.drop (l.filter shortLine).length = l.filter (fun x => !shortLine x) := by
  induction l with
  | nil => rfl
  | cons a l ih =>
      rcases List.pairwise_cons.mp h with ⟨ha, hl⟩
      cases hsa : shortLine a with
      | true =>
          simp only [List.filter_cons, hsa, List.length_cons, List.drop_succ_cons,
            Bool.not_true, if_true, if_false]
          simp only [Bool.false_eq_true, if_false]
          exact ih hl
      | false =>
          have hnone : ∀ x ∈ l, shortLine x = false := by
            intro x hx
            cases hx' : shortLine x with
            | false => rfl
            | true => exact absurd (ha x hx hx') (by simp [hsa])
          have hfilter : l.filter shortLine = [] :=
            List.filter_eq_nil_iff.mpr (by intro x hx; simp [hnone x hx])
          have hself : l.filter (fun x => !shortLine x) = l :=
            List.filter_eq_self.mpr (by intro x hx; simp [hnone x hx])
          simp [List.filter_cons, hsa, hfilter, hself]

/-- C6 amended: the atom lines are the original lines with the first `k`
dropped, where `k` is the number of lines with fewer than four
single-space-separated fields anywhere in the string; this equals the
claimed filtered list exactly when every short line precedes every
four-field line.  `spin = multiplicity - 1`, and a missing multiplicity
raises `AttributeError`. -/
theorem C6_get_pyscf_molecule_amended (mol : QCMol) (basis : String) :
    (mol.molecular_multiplicity = none →
        get_pyscf_molecule mol basis = Except.error "AttributeError")
    ∧ ∀ m, mol.molecular_multiplicity = some m →
        get_pyscf_molecule mol basis
            = Except.ok { atom := mol.xyzLines.drop (mol.xyzLines.filter shortLine).length,
                          basis := basis, spin := m - 1 }
          ∧ ((mol.xyzLines.Pairwise fun x y => shortLine y = true → shortLine x = true) →
              mol.xyzLines.drop (mol.xyzLines.filter shortLine).length
                = spec_atom_lines mol.xyzLines) := by
  constructor
  · intro hnone
    unfold get_pyscf_molecule
    rw [hnone]
  · intro m hm
    constructor
    · unfold get_pyscf_molecule
      rw [hm]
    · intro hsorted
      exact drop_count_eq_filter mol.xyzLines hsorted

/-- The concrete well-formed XYZ input of the C6 witness: natom line and
comment line are short, the single atom line has four fields. -/
def exMol : QCMol :=
  { molecular_multiplicity := some 1
    xyzLines := ["1", "comment line", "O 0.0 0.0 0.0"] }

/-- Witness for the amended C6 on the well-formed XYZ input `exMol`. -/
theorem C6_get_pyscf_molecule_amended_witness :
    get_pyscf_molecule exMol "sto-3g"
      = Except.ok ⟨exMol.xyzLines.drop (exMol.xyzLines.filter shortLine).length,
          "sto-3g", 1 - 1⟩
    ∧ exMol.xyzLines.drop (exMol.xyzLines.filter shortLine).length
      = spec_atom_lines exMol.xyzLines := by
  have h := (C6_get_pyscf_molecule_amended exMol "sto-3g").2 1 rfl
  exact ⟨h.1, h.2 (by decide)⟩

/-! ## `ScfPyScf.solve_scf` (scf_pyscf.py lines 123-148) -/

/-- First-match lookup in a Python-style attribute or dict association list. -/
def lookupStr {α : Type} (d : List (String × α)) (k : String) : Option α :=
  (d.find? fun kv => kv.1 == k).map Prod.snd

/-- Python attribute or dict assignment: the new binding shadows older ones. -/
def setStr {α : Type} (d : List (String × α)) (k : String) (v : α) :
    List (String × α) :=
  (k, v) :: d

/-- The PySCF solver object as `solve_scf` sees it: a bag of named
attributes (numeric options such as `conv_tol`). -/
structure PySolver where
  attrs : List (String × ℚ)
deriving DecidableEq

/-- A one-particle density matrix. -/
abbrev DM := List (List ℚ)

/-- The state of a `ScfPyScf` instance that `solve_scf` touches. -/
structure ScfState where
  scf_object : PySolver
  energy : List (String × ℚ)
  density : DM
deriving DecidableEq

/-- `solve_scf(**scfkwargs)`: the loop body
`self.scf_object.attr = scfkwargs[attr]` assigns the literal attribute named
`"attr"` once per keyword (it does not use `setattr`), then `kernel()` runs
(the external solver: its outputs are the function parameters `e_tot` and
`rdm1` of the configured solver), the total energy is stored under
`energy["scf"]` and the one-particle density matrix replaces `density`. -/
def solve_scf (e_tot : PySolver → ℚ) (rdm1 : PySolver → DM)
    (scfkwargs : List (String × ℚ)) (s : ScfState) : ScfState :=
  let obj := scfkwargs.foldl
    (fun o kv => { attrs := setStr o.attrs "attr" kv.2 }) s.scf_object
  { scf_object := obj
    energy := setStr s.energy "scf" (e_tot obj)
    density := rdm1 obj }

/-- C5: calling `solve_scf(conv_tol=1e-12)` on a solver whose `conv_tol` is
`1e-2` leaves `conv_tol` untouched and instead writes an attribute literally
named `attr`; the bookkeeping after `kernel()` does store the total energy
under `energy["scf"]` and the density matrix in `density`. -/
theorem C5_solve_scf_sets_attr_literally :
    (solve_scf (fun _ => 5) (fun _ => [[2]]) [("conv_tol", 1 / 10 ^ 12)]
        { scf_object := { attrs := [("conv_tol", 1 / 100)] }, energy := [], density := [] })
      = { scf_object := { attrs := [("attr", 1 / 10 ^ 12), ("conv_tol", 1 / 100)] }
          energy := [("scf", 5)]
          density := [[2]] }
    ∧ lookupStr [("attr", (1 : ℚ) / 10 ^ 12), ("conv_tol", 1 / 100)] "conv_tol"
        = some (1 / 100)
    ∧ lookupStr [("attr", (1 : ℚ) / 10 ^ 12), ("conv_tol", 1 / 100)] "attr"
        = some (1 / 10 ^ 12) := by
  refine ⟨rfl, rfl, rfl⟩

/-! ## `ScfPyScf.perturb_fock` / `restore_scf_object`
(scf_pyscf.py lines 96-121)

`perturb_fock` mutates the caller's numpy array in place (`pot += ref`) and
then installs `lambda *args: pot` as the solver's `get_hcore`, so later
`get_hcore` calls return the very same array object.  Arrays therefore live
in an explicit heap of references, and the value passed to `perturb_fock` is
either an array reference or a non-array. -/

/-- A reference to a numpy array in the heap. -/
abbrev Ref := ℕ

/-- A numpy array (one Fock-sized matrix, flattened). -/
abbrev Arr := List ℚ

/-- The heap of numpy arrays, newest binding first. -/
structure Heap where
  store : List (Ref × Arr)
deriving DecidableEq

def Heap.get (h : Heap) (r : Ref) : Option Arr :=
  (h.store.find? fun kv => kv.1 == r).map Prod.snd

def Heap.set (h : Heap) (r : Ref) (a : Arr) : Heap :=
  ⟨(r, a) :: h.store⟩

/-- A Python value passed to `perturb_fock`: a numpy array (by reference) or
anything else. -/
inductive PyVal where
  | ndarray (r : Ref)
  | other
deriving DecidableEq

/-- The solver configuration `perturb_fock` touches: the base core
Hamiltonian the class-level `get_hcore` would compute, and the instance
attribute holding the override lambda (as the reference it captured). -/
structure Solver where
  hcore : Arr
  hcoreOverride : Option Ref
deriving DecidableEq

/-- `scf_object.get_hcore(*args)`: the override lambda ignores its arguments
and returns the captured array; without an override the base matrix. -/
def Solver.getHcore (s : Solver) (h : Heap) (_args : List Arr) : Arr :=
  match s.hcoreOverride with
  | none => s.hcore
  | some r => (h.get r).getD []

/-- The state of a `ScfPyScf` instance relevant to Fock perturbation:
the array heap, the live solver, and the clean copy `_scf_object` made by
`copy(self.scf_object)` at construction. -/
structure PState where
  heap : Heap
  scf_object : Solver
  scf_object0 : Solver
deriving DecidableEq

/-- Construction (scf_pyscf.py lines 96-97): keep a clean shallow copy. -/
def mkScfPyScf (sol : Solver) (h : Heap) : PState :=
  { heap := h, scf_object := sol, scf_object0 := sol }

/-- `perturb_fock(pot)` (scf_pyscf.py lines 103-117): `TypeError` on a
non-array (state untouched); otherwise `ref = self.scf_object.get_hcore()`,
in-place `pot += ref` on the caller's array, and the override
`self.scf_object.get_hcore = lambda *args: pot` capturing the reference. -/
def perturb_fock (st : PState) (pot : PyVal) : Option String × PState :=
  match pot with
  | PyVal.other => (some "TypeError", st)
  | PyVal.ndarray r =>
      let ref := st.scf_object.getHcore st.heap []
      let arr := (st.heap.get r).getD []
      let newArr := List.zipWith (· + ·) arr ref
      (none,
        { heap := st.heap.set r newArr
          scf_object := { st.scf_object with hcoreOverride := some r }
          scf_object0 := st.scf_object0 })

/-- `restore_scf_object()` (scf_pyscf.py lines 119-121):
`self.scf_object = copy(self._scf_object)`. -/
def restore_scf_object (st : PState) : PState :=
  { st with scf_object := st.scf_object0 }

/-- C8: `perturb_fock` rejects non-arrays with `TypeError` leaving the state
unchanged; on an array it mutates the caller's array in place to
`pot + get_hcore()`, and afterwards `get_hcore(*args)` returns that same
aliased array for any arguments — including after further in-place updates
of the array. -/
theorem C8_perturb_fock (st : PState) (r : Ref) (a : Arr)
    (hget : st.heap.get r = some a) :
    perturb_fock st PyVal.other = (some "TypeError", st)
    ∧ (perturb_fock st (PyVal.ndarray r)).1 = none
    ∧ ((perturb_fock st (PyVal.ndarray r)).2).heap.get r
        = some (List.zipWith (· + ·) a (st.scf_object.getHcore st.heap []))
    ∧ (∀ args, ((perturb_fock st (PyVal.ndarray r)).2).scf_object.getHcore
          ((perturb_fock st (PyVal.ndarray r)).2).heap args
        = List.zipWith (· + ·) a (st.scf_object.getHcore st.heap []))
    ∧ (∀ args b, ((perturb_fock st (PyVal.ndarray r)).2).scf_object.getHcore
          (((perturb_fock st (PyVal.ndarray r)).2).heap.set r b) args = b) := by
  have hget' : (st.heap.store.find? fun kv => kv.1 == r).map Prod.snd = some a := hget
  refine ⟨rfl, rfl, ?_, ?_, ?_⟩
  · simp [perturb_fock, Heap.get, Heap.set, hget']
  · intro args
    simp [perturb_fock, Solver.getHcore, Heap.get, Heap.set, hget']
  · intro args b
    simp [perturb_fock, Solver.getHcore, Heap.get, Heap.set]

/-- Witness for C8 at a concrete one-array heap. -/
theorem C8_perturb_fock_witness :
    perturb_fock (mkScfPyScf { hcore := [10, 20], hcoreOverride := none } ⟨[(0, [1, 2])]⟩)
        PyVal.other
      = (some "TypeError",
         mkScfPyScf { hcore := [10, 20], hcoreOverride := none } ⟨[(0, [1, 2])]⟩)
    ∧ ((perturb_fock (mkScfPyScf { hcore := [10, 20], hcoreOverride := none } ⟨[(0, [1, 2])]⟩)
          (PyVal.ndarray 0)).2).heap.get 0 = some [11, 22] := by
  have h := C8_perturb_fock
    (mkScfPyScf { hcore := [10, 20], hcoreOverride := none } ⟨[(0, [1, 2])]⟩) 0 [1, 2]
    rfl
  refine ⟨h.1, ?_⟩
  rw [h.2.2.1]
  norm_num [mkScfPyScf, Solver.getHcore, List.zipWith]

theorem perturb_preserves_clean (st : PState) (p : PyVal) :
    ((perturb_fock st p).2).scf_object0 = st.scf_object0 := by
  cases p <;> rfl

/-- A sequence of `perturb_fock` calls, keeping only the states. -/
def applyPerturbs (st : PState) (pots : List PyVal) : PState :=
  pots.foldl (fun s p => (perturb_fock s p).2) st

/-- C9: after any sequence of `perturb_fock` calls on a freshly constructed
instance, `restore_scf_object` restores `scf_object` to its
construction-time configuration, and in particular `get_hcore` returns the
base core Hamiltonian again rather than any perturbed potential. -/
theorem C9_restore_roundtrip (sol : Solver) (h : Heap) (pots : List PyVal)
    (hclean : sol.hcoreOverride = none) :
    (restore_scf_object (applyPerturbs (mkScfPyScf sol h) pots)).scf_object = sol
    ∧ ∀ args,
        ((restore_scf_object (applyPerturbs (mkScfPyScf sol h) pots)).scf_object).getHcore
          (restore_scf_object (applyPerturbs (mkScfPyScf sol h) pots)).heap args
        = sol.hcore := by
  have key : ∀ (ps : List PyVal) (st : PState),
      (applyPerturbs st ps).scf_object0 = st.scf_object0 := by
    intro ps
    induction ps with
    | nil => intro st; rfl
    | cons p ps ih =>
        intro st
        have step : applyPerturbs st (p :: ps) = applyPerturbs ((perturb_fock st p).2) ps := rfl
        rw [step, ih ((perturb_fock st p).2), perturb_preserves_clean]
  have hobj : (restore_scf_object (applyPerturbs (mkScfPyScf sol h) pots)).scf_object = sol := by
    unfold restore_scf_object
    exact key pots (mkScfPyScf sol h)
  refine ⟨hobj, ?_⟩
  intro args
  rw [hobj]
  unfold Solver.getHcore
  rw [hclean]

/-- Witness for C9 after the sequence ndarray-other-ndarray of perturbations. -/
theorem C9_restore_roundtrip_witness :
    (restore_scf_object (applyPerturbs
        (mkScfPyScf { hcore := [10], hcoreOverride := none } ⟨[(0, [1])]⟩)
        [PyVal.ndarray 0, PyVal.other, PyVal.ndarray 0])).scf_object
      = { hcore := [10], hcoreOverride := none } :=
  (C9_restore_roundtrip { hcore := [10], hcoreOverride := none } ⟨[(0, [1])]⟩
    [PyVal.ndarray 0, PyVal.other, PyVal.ndarray 0] rfl).1

/-! ## `ScfMethod.get_density` / `get_energy` (scf.py lines 56-70) -/

/-- The cached state of a `ScfMethod` instance.  The subclass `solve_scf`
implementation enters the accessors as the function parameter `solve`. -/
structure MethodState where
  density : List DM
  energy : List (String × ℚ)
deriving DecidableEq

/-- `get_density` (scf.py lines 56-62): return the cache whenever the
density list is non-empty, otherwise run `solve_scf(conv_tol=1e-12)`. -/
def get_density (solve : List (String × ℚ) → MethodState → MethodState)
    (s : MethodState) : List DM × MethodState :=
  if s.density ≠ [] then (s.density, s)
  else
    let s2 := solve [("conv_tol", 1 / 10 ^ 12)] s
    (s2.density, s2)

/-- `get_energy` (scf.py lines 64-70): `if self.energy.get("scf", 0):` is a
float-truthiness test, false both when the key is missing and when the
stored energy is exactly `0.0`; only a present nonzero energy is returned
from the cache, otherwise `solve_scf(conv_tol=1e-12)` re-runs. -/
def get_energy (solve : List (String × ℚ) → MethodState → MethodState)
    (s : MethodState) : ℚ × MethodState :=
  if (lookupStr s.energy "scf").getD 0 ≠ 0 then ((lookupStr s.energy "scf").getD 0, s)
  else
    let s2 := solve [("conv_tol", 1 / 10 ^ 12)] s
    ((lookupStr s2.energy "scf").getD 0, s2)

/-- C10: the caching is asymmetric — `get_density` returns the cache
whenever the density list is non-empty, while `get_energy` returns the cache
only for a present nonzero `energy["scf"]`; a stored energy of exactly `0`
(or a missing entry) re-runs `solve_scf` with `conv_tol = 1e-12`. -/
theorem C10_cache_asymmetry
    (solve : List (String × ℚ) → MethodState → MethodState) (s : MethodState) :
    (s.density ≠ [] → get_density solve s = (s.density, s))
    ∧ (∀ e : ℚ, lookupStr s.energy "scf" = some e → e ≠ 0 →
        get_energy solve s = (e, s))
    ∧ (lookupStr s.energy "scf" = some 0 ∨ lookupStr s.energy "scf" = none →
        get_energy solve s
          = ((lookupStr (solve [("conv_tol", 1 / 10 ^ 12)] s).energy "scf").getD 0,
             solve [("conv_tol", 1 / 10 ^ 12)] s)) := by
  refine ⟨?_, ?_, ?_⟩
  · intro hne
    simp [get_density, hne]
  · intro e he hne
    simp [get_energy, he, hne]
  · intro hz
    rcases hz with hz | hz <;> simp [get_energy, hz]

/-- A concrete subclass `solve_scf` for the C10 witness: it stores energy 9
and one density matrix. -/
def exSolve : List (String × ℚ) → MethodState → MethodState :=
  fun _ s => { density := s.density, energy := setStr s.energy "scf" 9 }

/-- The two concrete cache states of the C10 witness. -/
def exCacheD : MethodState := { density := [[[1]]], energy := [("scf", 0)] }

def exCacheE : MethodState := { density := [], energy := [("scf", 7)] }

/-- Witness for C10: non-empty density cache is returned even though the
stored energy is zero; a nonzero stored energy is returned; the zero stored
energy triggers the re-run that stores 9. -/
theorem C10_cache_asymmetry_witness :
    get_density exSolve exCacheD = (exCacheD.density, exCacheD)
    ∧ get_energy exSolve exCacheE = (7, exCacheE)
    ∧ get_energy exSolve exCacheD
        = ((lookupStr (exSolve [("conv_tol", 1 / 10 ^ 12)] exCacheD).energy "scf").getD 0,
           exSolve [("conv_tol", 1 / 10 ^ 12)] exCacheD) := by
  refine ⟨(C10_cache_asymmetry exSolve exCacheD).1 (by decide),
          (C10_cache_asymmetry exSolve exCacheE).2.1 7 (by decide) (by decide),
          (C10_cache_asymmetry exSolve exCacheD).2.2 (Or.inl (by decide))⟩

end Taco
